import Mathlib

/-
Verification of the word-data aggregation core of the Eigen repository.

The embedding models:
  - `WordData` (WordData.py): the word index, a Python dict mapping a
    (word, pos) key to a dict mapping file names to lists of sentences.
    Python dicts preserve insertion order, so both dict levels are modelled
    as association lists where an update of an existing key keeps its
    position and a new key is appended at the end.
  - `WordData.add`, `WordData.get_count`, `WordData.is_equivalent`,
    `WordData.generate_results`, `WordData.get_results`.
  - The case-folding step of `WordExtractor.extract_words` and the
    word-category filter `WordExtractor.set_interesting_types`
    (WordExtractor.py).
  - The ranking key `count_desc_alphabetical` of `extract.py`.

Python code can raise exceptions (`w[0]` on an empty string raises
IndexError, `islice` with a negative stop raises ValueError), so fallible
operations return `Except Unit` (or `Except String` where the error
message matters). Python `str.lower()` and `str.isupper()` are modelled
per character with `Char.toLower` / `Char.isUpper` (ASCII letters), and
Python string comparison is modelled as lexicographic comparison of the
character lists by code point.
-/

namespace Eigen

/-- A (word, part-of-speech) pair, as produced by the tagger. -/
abbrev WordPos := String × String

/-- A sentence: a list of tagged tokens. -/
abbrev Sentence := List WordPos

/-- The inner dict of the index: file name to list of sentences. -/
abbrev FileDict := List (String × List Sentence)

/-- Per-character lowercasing, modelling Python `str.lower()`. -/
def pyLower (s : String) : String := ⟨s.data.map Char.toLower⟩

/-- Lookup in an insertion-ordered association list (Python `dict.get`). -/
def lookupA {α : Type} [DecidableEq α] {β : Type} : List (α × β) → α → Option β
  | [], _ => none
  | (k, v) :: rest, k' => if k = k' then some v else lookupA rest k'

/-- Update of an insertion-ordered association list, modelling the Python
idiom `if d.get(k) is None: d[k] = dflt` followed by a mutation of `d[k]`:
an existing key keeps its position and its value becomes `f v`; an absent
key is appended at the end with value `f dflt`. -/
def updateAssoc {α : Type} [DecidableEq α] {β : Type} (k : α) (dflt : β) (f : β → β) :
    List (α × β) → List (α × β)
  | [] => [(k, f dflt)]
  | (k', v) :: rest =>
    if k' = k then (k', f v) :: rest else (k', v) :: updateAssoc k dflt f rest

/-- The word index of WordData.py: `self.data`. -/
structure WordData where
  data : List (WordPos × FileDict)

/-- The state produced by `WordData.__init__`: an empty dict. -/
def WordData.empty : WordData := ⟨[]⟩

/-- `WordData.add(word_pos, file, sentence_pos)`: create the
key → file → list chain lazily if absent and append the sentence. -/
def WordData.add (d : WordData) (word_pos : WordPos) (file : String)
    (sentence_pos : Sentence) : WordData :=
  ⟨updateAssoc word_pos []
    (fun doc => updateAssoc file [] (fun ss => ss ++ [sentence_pos]) doc) d.data⟩

/-- `WordData.is_equivalent(word_pos, word_pos_in_sentence)`.
Python evaluates `p not in ('NNP', 'NNPS') and w[0].isupper()` with
short-circuiting: for a proper-noun tag the subscript `w[0]` is never
evaluated; otherwise `w[0]` raises IndexError when `w` is empty, modelled
by `Except.error ()`. -/
def WordData.is_equivalentE (word_pos word_pos_in_sentence : WordPos) : Except Unit Bool :=
  let w := word_pos_in_sentence.1
  let p := word_pos_in_sentence.2
  if p = "NNP" ∨ p = "NNPS" then
    Except.ok (word_pos.1 == w && word_pos.2 == p)
  else
    match w.data with
    | [] => Except.error ()
    | c :: _ =>
      let w := if c.isUpper then pyLower w else w
      Except.ok (word_pos.1 == w && word_pos.2 == p)

/-- One iteration of the inner loop of `WordData.get_count`:
`if WordData.is_equivalent(word_pos, wp): count += 1`. -/
def countStep (word_pos : WordPos) (count : Nat) (wp : WordPos) : Except Unit Nat := do
  let b ← WordData.is_equivalentE word_pos wp
  pure (if b then count + 1 else count)

/-- The sentences `WordData.get_count` scans: the per-file list when a file
is given (`self.data.get(word_pos).get(file) or []`), else the
concatenation of all per-file lists. Empty when the key is absent. -/
def WordData.sentencesOf (d : WordData) (word_pos : WordPos) (file : Option String) :
    List Sentence :=
  match lookupA d.data word_pos with
  | none => []
  | some doc =>
    match file with
    | some f => (lookupA doc f).getD []
    | none => (doc.map (fun fv => fv.2)).flatten

/-- `WordData.get_count(word_pos, file)`: re-scan every token of every
relevant recorded sentence, incrementing per equivalent token. -/
def WordData.get_countE (d : WordData) (word_pos : WordPos) (file : Option String) :
    Except Unit Nat :=
  match lookupA d.data word_pos with
  | none => Except.ok 0
  | some doc =>
    let sentences : List Sentence :=
      match file with
      | some f => (lookupA doc f).getD []
      | none => (doc.map (fun fv => fv.2)).flatten
    sentences.foldlM
      (fun count (sentence_pos : Sentence) =>
        sentence_pos.foldlM (countStep word_pos) count) 0

/-- The counting loop of `get_count` over a given sentence list, started
from 0 (the body of `get_count` after the sentences are selected). -/
def countSentencesE (word_pos : WordPos) (ss : List Sentence) : Except Unit Nat :=
  ss.foldlM
    (fun count (sentence_pos : Sentence) =>
      sentence_pos.foldlM (countStep word_pos) count) 0

/-- Defaulted count: the value of a successful `get_count`, 0 on error. -/
def WordData.get_countD (d : WordData) (word_pos : WordPos) (file : Option String) : Nat :=
  (d.get_countE word_pos file).toOption.getD 0

/-- The per-(key, file) sentence list as an `Option`: `none` when the
(key, file) pair was never added. -/
def WordData.sentencesFor (d : WordData) (word_pos : WordPos) (file : String) :
    Option (List Sentence) :=
  match lookupA d.data word_pos with
  | none => none
  | some doc => lookupA doc file

/-- The per-(key, file) sentence list, defaulted to the empty list when
the (key, file) pair was never added. -/
def sentencesForD (d : WordData) (word_pos : WordPos) (file : String) : List Sentence :=
  (d.sentencesFor word_pos file).getD []

/-- The file names recorded in the index for a key, in insertion order. -/
def WordData.filesOf (d : WordData) (word_pos : WordPos) : List String :=
  ((lookupA d.data word_pos).getD []).map (fun fv => fv.1)

/-- A token is safe for the equivalence scan when its surface form is
non-empty or its category is a proper-noun tag (for which the subscript
`w[0]` is short-circuited away). -/
abbrev tokenSafe (t : WordPos) : Prop := t.1 ≠ "" ∨ t.2 = "NNP" ∨ t.2 = "NNPS"

/-- An index state all of whose recorded tokens are safe to scan. -/
abbrev WordData.Safe (d : WordData) : Prop :=
  ∀ e ∈ d.data, ∀ fv ∈ e.2, ∀ s ∈ fv.2, ∀ t ∈ s, tokenSafe t

/-- The Boolean value of a successful equivalence test (false on error). -/
def equivB (word_pos t : WordPos) : Bool :=
  (WordData.is_equivalentE word_pos t).toOption.getD false

/-- The state reached from the empty index by a sequence of `add` calls. -/
def applyAdds (calls : List (WordPos × String × Sentence)) : WordData :=
  calls.foldl (fun d c => d.add c.1 c.2.1 c.2.2) WordData.empty

/-- The case-folding step of `WordExtractor.extract_words`:
`if pos not in ('NNP','NNPS') and word[0].isupper(): word_pos = (word.lower(), pos)`.
Evaluating `word[0]` on an empty surface form raises IndexError. -/
def extractorFoldE (word_pos : WordPos) : Except Unit WordPos :=
  let word := word_pos.1
  let pos := word_pos.2
  if pos = "NNP" ∨ pos = "NNPS" then
    Except.ok word_pos
  else
    match word.data with
    | [] => Except.error ()
    | c :: _ => Except.ok (if c.isUpper then (pyLower word, pos) else word_pos)

/-- The folding applied by `WordData.is_equivalent` to the token found in a
sentence, extracted as a standalone function for comparison with the
insertion-time folding of the extractor. -/
def countFoldE (word_pos_in_sentence : WordPos) : Except Unit WordPos :=
  let w := word_pos_in_sentence.1
  let p := word_pos_in_sentence.2
  if p = "NNP" ∨ p = "NNPS" then
    Except.ok word_pos_in_sentence
  else
    match w.data with
    | [] => Except.error ()
    | c :: _ => Except.ok (if c.isUpper then (pyLower w, p) else word_pos_in_sentence)

/-- Lexicographic comparison of character lists by code point, modelling
Python string `<`. -/
def charListLt : List Char → List Char → Bool
  | [], [] => false
  | [], _ :: _ => true
  | _ :: _, [] => false
  | a :: as, b :: bs => if a < b then true else if b < a then false else charListLt as bs

/-- Python string `<` on the characters of the two strings. -/
def strLt (a b : String) : Bool := charListLt a.data b.data

/-- Python `<` on (int, str) sort keys: compare the integers, break ties
with the strings. -/
def keyLt (a b : Int × String) : Bool :=
  decide (a.1 < b.1) || (a.1 == b.1 && strLt a.2 b.2)

/-- Insert a decorated element into a sorted run, after every element whose
key is strictly smaller (so insertion is stable, as Python `list.sort`). -/
def insertKeyed (x : (Int × String) × WordPos) :
    List ((Int × String) × WordPos) → List ((Int × String) × WordPos)
  | [] => [x]
  | y :: ys => if keyLt y.1 x.1 then y :: insertKeyed x ys else x :: y :: ys

/-- Stable ascending sort of decorated elements by `keyLt`. -/
def sortKeyed : List ((Int × String) × WordPos) → List ((Int × String) × WordPos)
  | [] => []
  | x :: xs => insertKeyed x (sortKeyed xs)

/-- Monadic map over `Except`, left to right (decoration step of
`list.sort(key=...)`: Python computes the key of every element, raising if
any key computation raises, then sorts the decorated list stably). -/
def mapME {α β : Type} (g : α → Except Unit β) : List α → Except Unit (List β)
  | [] => Except.ok []
  | x :: xs => do
    let y ← g x
    let ys ← mapME g xs
    Except.ok (y :: ys)

/-- `words_pos_list.sort(key=sort_by)` for a key returning an (int, str)
pair: decorate, sort stably, undecorate. -/
def pyListSort (key : WordPos → Except Unit (Int × String)) (l : List WordPos) :
    Except Unit (List WordPos) := do
  let dec ← mapME (fun wp => do
    let k ← key wp
    Except.ok (k, wp)) l
  Except.ok ((sortKeyed dec).map (fun x => x.2))

/-- The ranking key of `extract.py`:
`lambda word_pos: (-word_data.get_count(word_pos), word_pos[0].lower())`. -/
def count_desc_alphabetical (d : WordData) (word_pos : WordPos) :
    Except Unit (Int × String) := do
  let c ← d.get_countE word_pos none
  Except.ok (-(c : Int), pyLower word_pos.1)

/-- Monadic filter over `Except`, left to right (the generator loop of
`generate_results`, which evaluates the `min_count` test per key). -/
def filterME {α : Type} (p : α → Except Unit Bool) : List α → Except Unit (List α)
  | [] => Except.ok []
  | x :: xs => do
    let b ← p x
    let rest ← filterME p xs
    Except.ok (if b then x :: rest else rest)

/-- The key list of `generate_results` after the optional sort:
`words_pos_list = list(self.data.keys())` followed by
`if sort_by: words_pos_list.sort(key=sort_by)`. -/
def sortedKeys (d : WordData)
    (sort_by : Option (WordPos → Except Unit (Int × String))) :
    Except Unit (List WordPos) :=
  match sort_by with
  | none => Except.ok (d.data.map (fun e => e.1))
  | some key => pyListSort key (d.data.map (fun e => e.1))

/-- The per-key filter of `generate_results`:
`min_count is None or self.get_count(word_pos) >= min_count`,
short-circuited so no count is computed when `min_count` is absent. -/
def minCountTest (d : WordData) (min_count : Option Int) (word_pos : WordPos) :
    Except Unit Bool :=
  match min_count with
  | none => Except.ok true
  | some m => do
    let c ← d.get_countE word_pos none
    Except.ok (decide (m ≤ (c : Int)))

/-- `WordData.generate_results(min_count, sort_by)`, fully consumed: list
the keys, sort them when a key function is given, keep the keys passing
the `min_count` test, and pair each with its file dict. -/
def WordData.generate_resultsE (d : WordData) (min_count : Option Int)
    (sort_by : Option (WordPos → Except Unit (Int × String))) :
    Except Unit (List (WordPos × FileDict)) := do
  let sorted ← sortedKeys d sort_by
  let kept ← filterME (minCountTest d min_count) sorted
  Except.ok (kept.map (fun word_pos => (word_pos, (lookupA d.data word_pos).getD [])))

/-- `WordData.get_results(n, min_count, sort_by)`:
`n = n or len(self.data.keys())` (Python treats both `None` and `0` as
falsy), then `islice(results_iter, 0, n)`. `islice` validates its stop
argument when `get_results` is called, raising ValueError for a negative
`n`; otherwise the returned iterator yields the first `n` results. -/
def WordData.get_resultsE (d : WordData) (n : Option Int) (min_count : Option Int)
    (sort_by : Option (WordPos → Except Unit (Int × String))) :
    Except Unit (List (WordPos × FileDict)) :=
  let n' : Int := match n with
    | none => (d.data.length : Int)
    | some m => if m = 0 then (d.data.length : Int) else m
  if n' < 0 then Except.error ()
  else (d.generate_resultsE min_count sort_by).map (fun res => res.take n'.toNat)

/-- The ValueError message of `WordExtractor.set_interesting_types`. -/
def invalidTypeMessage (t : String) : String :=
  "Valid options are \"nouns\", \"verbs\", or \"adjectives\". Instead got \"" ++ t ++ "\"."

/-- The tags `set_interesting_types` adds for one valid category name. -/
def interestingTagsFor (t : String) : List String :=
  if t = "nouns" then ["NN", "NNS", "NNP", "NNPS"]
  else if t = "verbs" then ["VB", "VBD", "VBG", "VBN", "VBP", "VBZ"]
  else ["JJ", "JJR", "JJS"]

/-- The loop of `WordExtractor.set_interesting_types`: accumulate the tag
set, raising ValueError at the first entry that is not "nouns", "verbs",
or "adjectives". -/
def setInterestingLoop (acc : List String) : List String → Except String (List String)
  | [] => Except.ok acc
  | t :: rest =>
    if t = "nouns" ∨ t = "verbs" ∨ t = "adjectives" then
      setInterestingLoop (acc ++ interestingTagsFor t) rest
    else
      Except.error (invalidTypeMessage t)

/-- `WordExtractor.set_interesting_types(word_types)`: validates every
entry and only then replaces the class-level tag set (assigned after the
loop, so the set is untouched when the call raises). -/
def set_interesting_typesE (word_types : List String) : Except String (List String) :=
  setInterestingLoop [] word_types

/-- The prefix of `extract_word_data` (extract.py) relevant to the
word-category filter: when `interested_in` is supplied,
`set_interesting_types` runs first and a ValueError aborts the run before
the index is created or any file is read; the extraction proper (file
reading, tagging, `add` calls) is abstracted as a function of the
validated tag set and is provably never invoked on an invalid filter. -/
def extractPipeline (interested_in : Option (List String)) (dflt : List String)
    (extract : List String → WordData) : Except String WordData := do
  let tags ← match interested_in with
    | none => Except.ok dflt
    | some ts => set_interesting_typesE ts
  Except.ok (extract tags)

instance {ε α : Type} [DecidableEq ε] [DecidableEq α] : DecidableEq (Except ε α) := fun a b =>
  match a, b with
  | .ok x, .ok y => if h : x = y then isTrue (by rw [h]) else isFalse (by simp [h])
  | .error x, .error y => if h : x = y then isTrue (by rw [h]) else isFalse (by simp [h])
  | .ok _, .error _ => isFalse (by simp)
  | .error _, .ok _ => isFalse (by simp)

/-- The single-sentence state of the C3 test: one `add` call recording the
sentence [("Dogs","NNS"), ("ran","VBD"), ("Dogs","NNS")] for file "a.txt"
under key ("dogs","NNS"). -/
def dogsState : WordData :=
  WordData.empty.add ("dogs", "NNS") "a.txt"
    [("Dogs", "NNS"), ("ran", "VBD"), ("Dogs", "NNS")]

/-- The three-key state of the C6 ranking test: keys inserted in the order
cat, bee, ant with total counts 3, 3, 5. -/
def rankState : WordData :=
  ((WordData.empty.add ("cat", "NN") "f.txt"
      [("cat", "NN"), ("cat", "NN"), ("cat", "NN")]).add ("bee", "NN") "f.txt"
      [("bee", "NN"), ("bee", "NN"), ("bee", "NN")]).add ("ant", "NN") "f.txt"
      [("ant", "NN"), ("ant", "NN"), ("ant", "NN"), ("ant", "NN"), ("ant", "NN")]

/-- The five-key state of the C7 truncation test: keys v, w, x, y, z with
total counts 5, 4, 3, 2, 1, so the canonical ranking is v, w, x, y, z. -/
def fiveKeyState : WordData :=
  ((((WordData.empty.add ("v", "NN") "f.txt"
      [("v", "NN"), ("v", "NN"), ("v", "NN"), ("v", "NN"), ("v", "NN")]).add
      ("w", "NN") "f.txt"
      [("w", "NN"), ("w", "NN"), ("w", "NN"), ("w", "NN")]).add
      ("x", "NN") "f.txt" [("x", "NN"), ("x", "NN"), ("x", "NN")]).add
      ("y", "NN") "f.txt" [("y", "NN"), ("y", "NN")]).add
      ("z", "NN") "f.txt" [("z", "NN")]

/-- A state whose recorded sentence contains a token with empty surface
form and proper-noun category ("", "NNP"). -/
def emptyProperState : WordData :=
  WordData.empty.add ("x", "NN") "f.txt" [("x", "NN"), ("", "NNP")]

/-- A state holding the empty-surface key ("", "NN") over a sentence of
well-formed tokens. -/
def emptyKeyState : WordData :=
  WordData.empty.add ("", "NN") "f.txt" [("x", "NN")]

example : dogsState.get_countE ("dogs", "NNS") none = Except.ok 2 := rfl
example : rankState.get_countD ("ant", "NN") none = 5 := rfl
example :
    (rankState.generate_resultsE none (some (count_desc_alphabetical rankState))).map
      (fun l => l.map (fun e => e.1)) =
    Except.ok [("ant", "NN"), ("bee", "NN"), ("cat", "NN")] := rfl
example :
    (fiveKeyState.get_resultsE (some 2) none
      (some (count_desc_alphabetical fiveKeyState))).map (fun l => l.map (fun e => e.1)) =
    Except.ok [("v", "NN"), ("w", "NN")] := rfl
example :
    fiveKeyState.get_resultsE (some (-1)) none none = Except.error () := rfl
example : emptyProperState.get_countE ("x", "NN") none = Except.ok 1 := rfl
example : emptyKeyState.get_countE ("", "NN") none = Except.ok 0 := rfl
example : WordData.Safe dogsState := by decide
example : set_interesting_typesE ["nouns", "bad"] =
    Except.error (invalidTypeMessage "bad") := rfl

@[simp] theorem bindE_ok {ε α β : Type} (a : α) (f : α → Except ε β) :
    (Except.ok a >>= f) = f a := rfl

@[simp] theorem bindE_error {ε α β : Type} (e : ε) (f : α → Except ε β) :
    ((Except.error e : Except ε α) >>= f) = Except.error e := rfl

@[simp] theorem mapE_ok {ε α β : Type} (g : α → β) (a : α) :
    (Except.ok a : Except ε α).map g = Except.ok (g a) := rfl

@[simp] theorem mapE_error {ε α β : Type} (g : α → β) (e : ε) :
    (Except.error e : Except ε α).map g = Except.error e := rfl

theorem lookupA_updateAssoc_self {α : Type} [DecidableEq α] {β : Type}
    (k : α) (dflt : β) (f : β → β) (l : List (α × β)) :
    lookupA (updateAssoc k dflt f l) k = some (f ((lookupA l k).getD dflt)) := by
  induction l with
  | nil => simp [lookupA, updateAssoc]
  | cons p rest ih =>
    obtain ⟨a, v⟩ := p
    by_cases h : a = k
    · subst h; simp [lookupA, updateAssoc]
    · simp [lookupA, updateAssoc, h, ih]

theorem lookupA_updateAssoc_ne {α : Type} [DecidableEq α] {β : Type}
    (k k' : α) (dflt : β) (f : β → β) (l : List (α × β)) (h : k' ≠ k) :
    lookupA (updateAssoc k dflt f l) k' = lookupA l k' := by
  induction l with
  | nil => simp [lookupA, updateAssoc, Ne.symm h]
  | cons p rest ih =>
    obtain ⟨a, v⟩ := p
    by_cases ha : a = k
    · subst ha; simp [lookupA, updateAssoc, Ne.symm h]
    · simp [lookupA, updateAssoc, ha, ih]

theorem mem_updateAssoc {α : Type} [DecidableEq α] {β : Type}
    (k : α) (dflt : β) (f : β → β) (l : List (α × β)) (p : α × β)
    (hp : p ∈ updateAssoc k dflt f l) :
    p ∈ l ∨ p.2 = f dflt ∨ ∃ v, (k, v) ∈ l ∧ p.2 = f v := by
  induction l with
  | nil =>
    simp [updateAssoc] at hp
    subst hp; simp
  | cons q rest ih =>
    obtain ⟨a, v⟩ := q
    by_cases ha : a = k
    · subst ha
      simp [updateAssoc] at hp
      rcases hp with h | h
      · right; right; exact ⟨v, by simp, by rw [h]⟩
      · left; simp [h]
    · simp [updateAssoc, ha] at hp
      rcases hp with h | h
      · left; simp [h]
      · rcases ih h with h1 | h2 | ⟨w, hw1, hw2⟩
        · left; simp [h1]
        · right; left; exact h2
        · right; right; exact ⟨w, by simp [hw1], hw2⟩

theorem map_fst_updateAssoc {α : Type} [DecidableEq α] {β : Type}
    (k : α) (dflt : β) (f : β → β) (l : List (α × β)) :
    (updateAssoc k dflt f l).map Prod.fst =
      if k ∈ l.map Prod.fst then l.map Prod.fst else l.map Prod.fst ++ [k] := by
  induction l with
  | nil => simp [updateAssoc]
  | cons q rest ih =>
    obtain ⟨a, v⟩ := q
    by_cases ha : a = k
    · subst ha; simp [updateAssoc]
    · simp only [updateAssoc, if_neg ha, List.map_cons, ih]
      by_cases hk : k ∈ rest.map Prod.fst <;>
        simp [hk, Ne.symm ha]

theorem nodup_map_fst_updateAssoc {α : Type} [DecidableEq α] {β : Type}
    (k : α) (dflt : β) (f : β → β) (l : List (α × β))
    (h : (l.map Prod.fst).Nodup) : ((updateAssoc k dflt f l).map Prod.fst).Nodup := by
  rw [map_fst_updateAssoc]
  by_cases hk : k ∈ l.map Prod.fst
  · simpa [hk] using h
  · simp only [if_neg hk]
    exact h.append (List.nodup_singleton k) (by simp [List.disjoint_singleton, hk])

theorem mem_of_lookupA {α : Type} [DecidableEq α] {β : Type}
    (l : List (α × β)) (k : α) (v : β) (h : lookupA l k = some v) : (k, v) ∈ l := by
  induction l with
  | nil => simp [lookupA] at h
  | cons q rest ih =>
    obtain ⟨a, w⟩ := q
    by_cases ha : a = k
    · subst ha
      simp [lookupA] at h
      simp [h]
    · simp [lookupA, ha] at h
      simp [ih h]

theorem get_countE_eq_countSentencesE (d : WordData) (word_pos : WordPos)
    (file : Option String) :
    d.get_countE word_pos file = countSentencesE word_pos (d.sentencesOf word_pos file) := by
  rw [WordData.get_countE, WordData.sentencesOf, countSentencesE]
  cases lookupA d.data word_pos <;> rfl

theorem foldlM_countStep_shift (word_pos : WordPos) (s : List WordPos) :
    ∀ a : Nat, s.foldlM (countStep word_pos) a =
      (s.foldlM (countStep word_pos) 0).map (fun c => a + c) := by
  induction s with
  | nil => intro a; rfl
  | cons t ts ih =>
    intro a
    rw [List.foldlM_cons, List.foldlM_cons]
    cases hb : WordData.is_equivalentE word_pos t with
    | error e => simp [countStep, hb]
    | ok b =>
      simp only [countStep, hb, bindE_ok, pure_bind]
      rw [ih, ih (if b then 0 + 1 else 0)]
      cases hc : ts.foldlM (countStep word_pos) 0 with
      | error e => simp
      | ok c => cases b <;> simp <;> omega

theorem foldlM_sentences_shift (word_pos : WordPos) (ss : List Sentence) :
    ∀ a : Nat,
      ss.foldlM
        (fun count (sentence_pos : Sentence) =>
          sentence_pos.foldlM (countStep word_pos) count) a =
      (countSentencesE word_pos ss).map (fun c => a + c) := by
  induction ss with
  | nil => intro a; rfl
  | cons s ss ih =>
    intro a
    rw [countSentencesE, List.foldlM_cons, List.foldlM_cons]
    rw [foldlM_countStep_shift word_pos s a, foldlM_countStep_shift word_pos s 0]
    cases hc : s.foldlM (countStep word_pos) 0 with
    | error e => simp
    | ok c =>
      simp only [mapE_ok, bindE_ok]
      rw [ih, ih (0 + c)]
      cases hd : countSentencesE word_pos ss with
      | error e => simp
      | ok d0 =>
        simp
        omega

theorem countSentencesE_append (word_pos : WordPos) (l1 l2 : List Sentence) :
    countSentencesE word_pos (l1 ++ l2) =
      (countSentencesE word_pos l1) >>=
        (fun c1 => (countSentencesE word_pos l2).map (fun c2 => c1 + c2)) := by
  rw [countSentencesE, List.foldlM_append]
  cases h1 : countSentencesE word_pos l1 with
  | error e => rw [countSentencesE] at h1; rw [h1]; simp
  | ok c1 =>
    rw [countSentencesE] at h1
    rw [h1, bindE_ok, bindE_ok, foldlM_sentences_shift]

theorem countSentencesE_flatten (word_pos : WordPos) (doc : FileDict) :
    countSentencesE word_pos ((doc.map (fun fv => fv.2)).flatten) =
      (mapME (fun fv => countSentencesE word_pos fv.2) doc).map (fun cs => cs.sum) := by
  induction doc with
  | nil => rfl
  | cons fv doc ih =>
    rw [List.map_cons, List.flatten_cons, countSentencesE_append, mapME]
    cases h1 : countSentencesE word_pos fv.2 with
    | error e => simp
    | ok c1 =>
      simp only [bindE_ok]
      rw [ih]
      cases h2 : mapME (fun fv => countSentencesE word_pos fv.2) doc with
      | error e => simp
      | ok cs => simp

theorem mapME_congr {α β : Type} (g g' : α → Except Unit β) (l : List α)
    (h : ∀ x ∈ l, g x = g' x) : mapME g l = mapME g' l := by
  induction l with
  | nil => rfl
  | cons x xs ih =>
    rw [mapME, mapME, h x (by simp), ih (fun y hy => h y (by simp [hy]))]

theorem mapME_lookup_eq (word_pos : WordPos) (doc : FileDict)
    (hnd : (doc.map Prod.fst).Nodup) :
    mapME (fun f => countSentencesE word_pos ((lookupA doc f).getD [])) (doc.map Prod.fst) =
      mapME (fun fv => countSentencesE word_pos fv.2) doc := by
  induction doc with
  | nil => rfl
  | cons fv doc ih =>
    obtain ⟨f0, ss0⟩ := fv
    rw [List.map_cons] at hnd ⊢
    have hne : f0 ∉ doc.map Prod.fst := (List.nodup_cons.mp hnd).1
    rw [mapME, mapME]
    have hhead : lookupA ((f0, ss0) :: doc) f0 = some ss0 := by simp [lookupA]
    rw [hhead]
    have htail :
        mapME (fun f => countSentencesE word_pos ((lookupA ((f0, ss0) :: doc) f).getD []))
          (doc.map Prod.fst) =
        mapME (fun fv => countSentencesE word_pos fv.2) doc := by
      rw [mapME_congr _
          (fun f => countSentencesE word_pos ((lookupA doc f).getD [])) _ ?_]
      · exact ih (List.nodup_cons.mp hnd).2
      · intro f hf
        have hne' : f0 ≠ f := fun he => hne (he ▸ hf)
        simp [lookupA, hne']
    rw [htail]
    rfl

theorem is_equivalentE_ok_of_tokenSafe (k t : WordPos) (h : tokenSafe t) :
    WordData.is_equivalentE k t = Except.ok (equivB k t) := by
  obtain ⟨w, p⟩ := t
  by_cases hp : p = "NNP" ∨ p = "NNPS"
  · simp [WordData.is_equivalentE, equivB, hp, Except.toOption]
  · have hw : w ≠ "" := by
      rcases h with hw | hp' | hp'
      · exact hw
      · exact absurd (Or.inl hp') hp
      · exact absurd (Or.inr hp') hp
    cases hwd : w.data with
    | nil => exact absurd (String.ext (by rw [hwd])) hw
    | cons c cs =>
      simp [WordData.is_equivalentE, equivB, hp, hwd, Except.toOption]

theorem is_equivalentE_error_of_bad (k t : WordPos) (h1 : t.1 = "")
    (h2 : ¬(t.2 = "NNP" ∨ t.2 = "NNPS")) :
    WordData.is_equivalentE k t = Except.error () := by
  obtain ⟨w, p⟩ := t
  simp only at h1 h2
  subst h1
  simp [WordData.is_equivalentE, h2]

theorem foldlM_countStep_ok_of_safe (k : WordPos) (s : List WordPos)
    (h : ∀ t ∈ s, tokenSafe t) : ∀ a : Nat,
    s.foldlM (countStep k) a = Except.ok (a + s.countP (equivB k)) := by
  induction s with
  | nil => intro a; simp [List.foldlM_nil]; rfl
  | cons t ts ih =>
    intro a
    rw [List.foldlM_cons]
    have ht := is_equivalentE_ok_of_tokenSafe k t (h t (by simp))
    simp only [countStep, ht, bindE_ok, pure_bind]
    rw [ih (fun t' h' => h t' (by simp [h']))]
    cases hb : equivB k t <;> simp [List.countP_cons, hb] <;> omega

theorem countSentencesE_ok_of_safe (k : WordPos) (ss : List Sentence)
    (h : ∀ s ∈ ss, ∀ t ∈ s, tokenSafe t) :
    countSentencesE k ss =
      Except.ok ((ss.map (fun s => s.countP (equivB k))).sum) := by
  induction ss with
  | nil => rfl
  | cons s ss ih =>
    rw [countSentencesE, List.foldlM_cons]
    rw [foldlM_countStep_ok_of_safe k s (h s (by simp)) 0]
    rw [bindE_ok, foldlM_sentences_shift]
    rw [ih (fun s' h' t ht => h s' (by simp [h']) t ht)]
    simp [List.map_cons, List.sum_cons]

theorem foldlM_countStep_error_of_bad (k : WordPos) (s : List WordPos) :
    (∃ t ∈ s, t.1 = "" ∧ ¬(t.2 = "NNP" ∨ t.2 = "NNPS")) → ∀ a : Nat,
    s.foldlM (countStep k) a = Except.error () := by
  induction s with
  | nil => intro h; simp at h
  | cons t ts ih =>
    intro h a
    rw [List.foldlM_cons]
    rcases h with ⟨t', ht'mem, ht'⟩
    rcases List.mem_cons.mp ht'mem with rfl | hmem
    · simp [countStep, is_equivalentE_error_of_bad k t' ht'.1 ht'.2]
    · cases hb : WordData.is_equivalentE k t with
      | error e => cases e; simp [countStep, hb]
      | ok b =>
        simp only [countStep, hb, bindE_ok, pure_bind]
        exact ih ⟨t', hmem, ht'⟩ _

theorem countSentencesE_error_of_bad (k : WordPos) (ss : List Sentence) :
    (∃ s ∈ ss, ∃ t ∈ s, t.1 = "" ∧ ¬(t.2 = "NNP" ∨ t.2 = "NNPS")) →
    countSentencesE k ss = Except.error () := by
  induction ss with
  | nil => intro h; simp at h
  | cons s ss ih =>
    intro h
    rw [countSentencesE, List.foldlM_cons]
    rcases h with ⟨s', hs'mem, hs'⟩
    rcases List.mem_cons.mp hs'mem with rfl | hmem
    · rw [foldlM_countStep_error_of_bad k s' hs' 0]
      simp
    · cases hc : s.foldlM (countStep k) 0 with
      | error e => cases e; simp [hc]
      | ok c =>
        rw [bindE_ok, foldlM_sentences_shift, ih ⟨s', hmem, hs'⟩]
        simp

theorem mem_sentencesOf (d : WordData) (k : WordPos) (f : Option String)
    (s : Sentence) (hs : s ∈ d.sentencesOf k f) :
    ∃ doc, lookupA d.data k = some doc ∧ ∃ fv ∈ doc, s ∈ fv.2 := by
  rw [WordData.sentencesOf] at hs
  cases hd : lookupA d.data k with
  | none => rw [hd] at hs; simp at hs
  | some doc =>
    rw [hd] at hs
    refine ⟨doc, rfl, ?_⟩
    cases f with
    | some f0 =>
      simp only at hs
      cases hl : lookupA doc f0 with
      | none => rw [hl] at hs; simp at hs
      | some ss =>
        rw [hl] at hs
        exact ⟨(f0, ss), mem_of_lookupA doc f0 ss hl, hs⟩
    | none =>
      simp only at hs
      rcases List.mem_flatten.mp hs with ⟨l, hl, hsl⟩
      rcases List.mem_map.mp hl with ⟨fv, hfv, rfl⟩
      exact ⟨fv, hfv, hsl⟩

theorem safe_sentencesOf (d : WordData) (hS : d.Safe) (k : WordPos) (f : Option String) :
    ∀ s ∈ d.sentencesOf k f, ∀ t ∈ s, tokenSafe t := by
  intro s hs t ht
  rcases mem_sentencesOf d k f s hs with ⟨doc, hdoc, fv, hfv, hsfv⟩
  exact hS (k, doc) (mem_of_lookupA d.data k doc hdoc) fv hfv s hsfv t ht

theorem get_countE_ok_of_safe (d : WordData) (hS : d.Safe) (k : WordPos)
    (f : Option String) :
    d.get_countE k f =
      Except.ok (((d.sentencesOf k f).map (fun s => s.countP (equivB k))).sum) := by
  rw [get_countE_eq_countSentencesE]
  exact countSentencesE_ok_of_safe k _ (safe_sentencesOf d hS k f)

theorem nodupFiles_add (d : WordData)
    (h : ∀ e ∈ d.data, (e.2.map Prod.fst).Nodup)
    (t : WordPos) (f : String) (s : Sentence) :
    ∀ e ∈ (d.add t f s).data, (e.2.map Prod.fst).Nodup := by
  intro e he
  rcases mem_updateAssoc _ _ _ _ _ he with h1 | h2 | ⟨v, hv, he2⟩
  · exact h e h1
  · rw [h2]
    exact nodup_map_fst_updateAssoc _ _ _ _ (by simp)
  · rw [he2]
    exact nodup_map_fst_updateAssoc _ _ _ _ (h (t, v) hv)

theorem nodupFiles_foldl (calls : List (WordPos × String × Sentence)) :
    ∀ d : WordData, (∀ e ∈ d.data, (e.2.map Prod.fst).Nodup) →
      ∀ e ∈ (calls.foldl (fun d c => d.add c.1 c.2.1 c.2.2) d).data,
        (e.2.map Prod.fst).Nodup := by
  induction calls with
  | nil => intro d h; simpa using h
  | cons c cs ih =>
    intro d h
    rw [List.foldl_cons]
    exact ih _ (nodupFiles_add d h _ _ _)

theorem nodupFiles_applyAdds (calls : List (WordPos × String × Sentence)) :
    ∀ e ∈ (applyAdds calls).data, (e.2.map Prod.fst).Nodup :=
  nodupFiles_foldl calls WordData.empty (by simp [WordData.empty])

theorem sentencesFor_add_self (d : WordData) (t : WordPos) (f : String) (s : Sentence) :
    (d.add t f s).sentencesFor t f = some ((d.sentencesFor t f).getD [] ++ [s]) := by
  rw [WordData.sentencesFor, WordData.add]
  simp only
  rw [lookupA_updateAssoc_self]
  show lookupA (updateAssoc f [] (fun ss => ss ++ [s]) ((lookupA d.data t).getD [])) f =
    some ((d.sentencesFor t f).getD [] ++ [s])
  rw [WordData.sentencesFor]
  cases h : lookupA d.data t with
  | none => simp [lookupA, updateAssoc]
  | some doc => simp [lookupA_updateAssoc_self]

theorem sentencesFor_add_ne (d : WordData) (t t' : WordPos) (f f' : String)
    (s : Sentence) (h : ¬(t = t' ∧ f = f')) :
    (d.add t' f' s).sentencesFor t f = d.sentencesFor t f := by
  by_cases ht : t = t'
  · subst ht
    have hf : f ≠ f' := fun hf => h ⟨rfl, hf⟩
    rw [WordData.sentencesFor, WordData.add]
    simp only
    rw [lookupA_updateAssoc_self]
    rw [WordData.sentencesFor]
    cases hl : lookupA d.data t with
    | none => simp [lookupA, Ne.symm hf]
    | some doc => simp [lookupA_updateAssoc_ne _ _ _ _ _ hf]
  · rw [WordData.sentencesFor, WordData.add]
    simp only
    rw [lookupA_updateAssoc_ne _ _ _ _ _ ht]
    rw [WordData.sentencesFor]

theorem sentencesForD_add (d : WordData) (t t' : WordPos) (f f' : String) (s : Sentence) :
    sentencesForD (d.add t' f' s) t f =
      sentencesForD d t f ++ (if t = t' ∧ f = f' then [s] else []) := by
  by_cases h : t = t' ∧ f = f'
  · obtain ⟨rfl, rfl⟩ := h
    rw [sentencesForD, sentencesFor_add_self, sentencesForD]
    simp
  · rw [sentencesForD, sentencesFor_add_ne d t t' f f' s h, sentencesForD]
    simp [h]

theorem sentencesForD_foldl (t : WordPos) (f : String)
    (calls : List (WordPos × String × Sentence)) : ∀ d : WordData,
    sentencesForD (calls.foldl (fun d c => d.add c.1 c.2.1 c.2.2) d) t f =
      sentencesForD d t f ++
        (calls.filter (fun c => c.1 == t && c.2.1 == f)).map (fun c => c.2.2) := by
  induction calls with
  | nil => intro d; simp
  | cons c cs ih =>
    intro d
    rw [List.foldl_cons, ih, sentencesForD_add]
    by_cases hc : c.1 = t ∧ c.2.1 = f
    · obtain ⟨h1, h2⟩ := hc
      simp [List.filter_cons, h1, h2]
    · rw [List.filter_cons]
      have hb : (c.1 == t && c.2.1 == f) = false := by
        rcases not_and_or.mp hc with h | h <;> simp [h]
      have hc' : ¬(t = c.1 ∧ f = c.2.1) := fun hx => hc ⟨hx.1.symm, hx.2.symm⟩
      simp [hb, hc']

theorem prodBeq (key t : WordPos) : (key == t) = (key.1 == t.1 && key.2 == t.2) := rfl

/-- C1: for every state of the word index reachable by a sequence of `add`
calls and for every key `k`, the all-files count `get_count(k)` equals the
sum, over every file recorded in the index for `k`, of the per-file counts
`get_count(k, f)` (the two sides also erroring together when a scan
errors on a malformed token). -/
theorem claim_C1 (calls : List (WordPos × String × Sentence)) (k : WordPos) :
    (applyAdds calls).get_countE k none =
      (mapME (fun f => (applyAdds calls).get_countE k (some f))
        ((applyAdds calls).filesOf k)).map (fun cs => cs.sum) := by
  cases h : lookupA (applyAdds calls).data k with
  | none =>
    rw [get_countE_eq_countSentencesE, WordData.sentencesOf, h, WordData.filesOf, h]
    rfl
  | some doc =>
    have hnd : (doc.map Prod.fst).Nodup :=
      nodupFiles_applyAdds calls (k, doc) (mem_of_lookupA _ _ _ h)
    have hL : (applyAdds calls).get_countE k none =
        countSentencesE k ((doc.map (fun fv => fv.2)).flatten) := by
      rw [get_countE_eq_countSentencesE, WordData.sentencesOf, h]
    have hfiles : (applyAdds calls).filesOf k = doc.map Prod.fst := by
      rw [WordData.filesOf, h]
      rfl
    have hR : ∀ f ∈ doc.map Prod.fst,
        (applyAdds calls).get_countE k (some f) =
          countSentencesE k ((lookupA doc f).getD []) := by
      intro f _
      rw [get_countE_eq_countSentencesE, WordData.sentencesOf, h]
    rw [hL, hfiles, countSentencesE_flatten]
    rw [mapME_congr _ (fun f => countSentencesE k ((lookupA doc f).getD []))
        (doc.map Prod.fst) hR]
    rw [mapME_lookup_eq k doc hnd]

/-- C2: for a tagged token with non-empty surface form, the insertion-time
folding lowercases the whole surface form exactly when the category is not
NNP/NNPS and the first character is uppercase, never folds proper nouns
(so ("Apple","NN") maps to ("apple","NN") and ("Apple","NNP") stays
("Apple","NNP")), and the counting-time equivalence predicate holds for a
key and the token iff the key equals the folded token. -/
theorem claim_C2 :
    (∀ (w p : String) (c : Char) (cs : List Char), w.data = c :: cs →
      ((¬(p = "NNP" ∨ p = "NNPS") → c.isUpper = true →
          extractorFoldE (w, p) = Except.ok (pyLower w, p)) ∧
       ((p = "NNP" ∨ p = "NNPS") → extractorFoldE (w, p) = Except.ok (w, p)) ∧
       (∀ (key fw : WordPos), extractorFoldE (w, p) = Except.ok fw →
          (WordData.is_equivalentE key (w, p) = Except.ok true ↔ key = fw)))) ∧
    extractorFoldE ("Apple", "NN") = Except.ok ("apple", "NN") ∧
    extractorFoldE ("Apple", "NNP") = Except.ok ("Apple", "NNP") := by
  refine ⟨?_, rfl, rfl⟩
  intro w p c cs hwd
  refine ⟨?_, ?_, ?_⟩
  · intro hp hc
    simp [extractorFoldE, hp, hwd, hc]
  · intro hp
    simp [extractorFoldE, hp]
  · intro key fw hfw
    by_cases hp : p = "NNP" ∨ p = "NNPS"
    · simp [extractorFoldE, hp] at hfw
      subst hfw
      simp [WordData.is_equivalentE, hp, prodBeq, Prod.ext_iff]
    · cases hc : c.isUpper <;>
        (simp [extractorFoldE, hp, hwd, hc] at hfw
         subst hfw
         simp [WordData.is_equivalentE, hp, hwd, hc, prodBeq, Prod.ext_iff])

theorem claim_C2_witness :
    ("Apple" : String).data = 'A' :: ['p', 'p', 'l', 'e'] ∧
      ¬(("NN" : String) = "NNP" ∨ ("NN" : String) = "NNPS") ∧
      ('A').isUpper = true ∧
      extractorFoldE ("Apple", "NN") = Except.ok (pyLower "Apple", "NN") :=
  ⟨rfl, by decide, rfl,
    (claim_C2.1 "Apple" "NN" 'A' ['p', 'p', 'l', 'e'] rfl).1 (by decide) rfl⟩

/-- C3: `get_count` re-scans every token of every relevant recorded
sentence and adds one per token equivalent to the key, so a token that
occurs twice in one recorded sentence is counted twice; concretely, after
adding the single sentence [("Dogs","NNS"), ("ran","VBD"), ("Dogs","NNS")]
for file "a.txt" under key ("dogs","NNS"), the count is 2. -/
theorem claim_C3 :
    (∀ (d : WordData) (k : WordPos), d.Safe →
        d.get_countE k none =
          Except.ok (((d.sentencesOf k none).map
            (fun s => s.countP (equivB k))).sum)) ∧
    dogsState.get_countE ("dogs", "NNS") none = Except.ok 2 := by
  refine ⟨?_, rfl⟩
  intro d k hS
  exact get_countE_ok_of_safe d hS k none

theorem claim_C3_witness :
    WordData.Safe dogsState ∧
      dogsState.get_countE ("dogs", "NNS") none =
        Except.ok (((dogsState.sentencesOf ("dogs", "NNS") none).map
          (fun s => s.countP (equivB ("dogs", "NNS")))).sum) :=
  ⟨by decide, claim_C3.1 dogsState ("dogs", "NNS") (by decide)⟩

/-- C4: after `add(t, f, s1)` then `add(t, f, s2)` on a state where the
(t, f) pair was absent, the stored sentence list for (t, f) is exactly
[s1, s2]; in general the per-(key, file) list equals the sequence of
sentences passed to `add` for that pair, in call order, without
reordering or deduplication. -/
theorem claim_C4 :
    (∀ (d : WordData) (t : WordPos) (f : String) (s1 s2 : Sentence),
        d.sentencesFor t f = none →
        ((d.add t f s1).add t f s2).sentencesFor t f = some [s1, s2]) ∧
    (∀ (calls : List (WordPos × String × Sentence)) (t : WordPos) (f : String),
        sentencesForD (applyAdds calls) t f =
          (calls.filter (fun c => c.1 == t && c.2.1 == f)).map (fun c => c.2.2)) := by
  constructor
  · intro d t f s1 s2 h
    rw [sentencesFor_add_self, sentencesFor_add_self, h]
    rfl
  · intro calls t f
    rw [applyAdds, sentencesForD_foldl]
    rfl

theorem claim_C4_witness :
    WordData.empty.sentencesFor ("dog", "NN") "f.txt" = none ∧
      ((WordData.empty.add ("dog", "NN") "f.txt" [[("dog", "NN")]].flatten).add
          ("dog", "NN") "f.txt" [("a", "DT")]).sentencesFor ("dog", "NN") "f.txt" =
        some [[("dog", "NN")], [("a", "DT")]] :=
  ⟨rfl, claim_C4.1 WordData.empty ("dog", "NN") "f.txt" [("dog", "NN")] [("a", "DT")] rfl⟩

/-- C5: the normalization policy is applied identically at insertion and at
counting time: for every token with non-empty surface form, the
insertion-time folding of the extractor and the folding used inside the
counting-time equivalence predicate are the same function, and the
equivalence predicate is exactly comparison of the key against that
folded token. -/
theorem claim_C5 (tok : WordPos) (h : tok.1 ≠ "") :
    extractorFoldE tok = countFoldE tok ∧
    ∀ key : WordPos, WordData.is_equivalentE key tok =
      (countFoldE tok).map (fun t => key == t) := by
  obtain ⟨w, p⟩ := tok
  refine ⟨rfl, ?_⟩
  intro key
  by_cases hp : p = "NNP" ∨ p = "NNPS"
  · simp [WordData.is_equivalentE, countFoldE, hp, prodBeq]
  · cases hwd : w.data with
    | nil => simp [WordData.is_equivalentE, countFoldE, hp, hwd]
    | cons c cs =>
      cases hc : c.isUpper <;>
        simp [WordData.is_equivalentE, countFoldE, hp, hwd, hc, prodBeq]

theorem claim_C5_witness :
    (("Apple", "NN") : WordPos).1 ≠ "" ∧
      extractorFoldE ("Apple", "NN") = countFoldE ("Apple", "NN") :=
  ⟨by decide, (claim_C5 ("Apple", "NN") (by decide)).1⟩

/-- C8: `get_count` on a key never added returns 0 (for the all-files and
any per-file query), and `get_count(key, file)` for a key present in the
index but never added for the given file returns 0; no error is raised. -/
theorem claim_C8 :
    (∀ (d : WordData) (k : WordPos), lookupA d.data k = none →
        ∀ f : Option String, d.get_countE k f = Except.ok 0) ∧
    (∀ (d : WordData) (k : WordPos) (doc : FileDict) (f : String),
        lookupA d.data k = some doc → lookupA doc f = none →
        d.get_countE k (some f) = Except.ok 0) := by
  constructor
  · intro d k h f
    rw [WordData.get_countE, h]
  · intro d k doc f h1 h2
    rw [WordData.get_countE, h1]
    simp only [h2]
    rfl

theorem claim_C8_witness :
    lookupA dogsState.data ("nonexistent", "XX") = none ∧
      dogsState.get_countE ("nonexistent", "XX") none = Except.ok 0 :=
  ⟨rfl, claim_C8.1 dogsState ("nonexistent", "XX") rfl none⟩

/-- C10 counterexample: a recorded sentence containing the empty-surface
token ("", "NNP") does not make `get_count` raise (the proper-noun test
short-circuits before `w[0]` is evaluated), and a query for the
empty-surface key ("", "NN") over well-formed sentences succeeds as well,
so the claim that any empty surface form in a recorded sentence forces an
out-of-range error, and that the queried key must be non-empty, is false. -/
theorem claim_C10_counterexample :
    emptyProperState.get_countE ("x", "NN") none = Except.ok 1 ∧
    emptyKeyState.get_countE ("", "NN") none = Except.ok 0 := ⟨rfl, rfl⟩

/-- C10 (amended): `get_count` is total when every recorded token has a
non-empty surface form or a proper-noun category (NNP/NNPS); it raises
exactly when it scans a token whose surface form is empty and whose
category is not NNP/NNPS; the queried key's own surface form is only
compared, never indexed, so it cannot cause the error. -/
theorem claim_C10 :
    (∀ (d : WordData) (k : WordPos) (f : Option String), d.Safe →
        ∃ c : Nat, d.get_countE k f = Except.ok c) ∧
    (∀ (d : WordData) (k : WordPos) (doc : FileDict), lookupA d.data k = some doc →
        ∀ fv ∈ doc, ∀ s ∈ fv.2,
          (∃ t ∈ s, t.1 = "" ∧ ¬(t.2 = "NNP" ∨ t.2 = "NNPS")) →
          d.get_countE k none = Except.error ()) := by
  constructor
  · intro d k f hS
    exact ⟨_, get_countE_ok_of_safe d hS k f⟩
  · intro d k doc h fv hfv s hs hbad
    rw [get_countE_eq_countSentencesE]
    apply countSentencesE_error_of_bad
    refine ⟨s, ?_, hbad⟩
    rw [WordData.sentencesOf, h]
    exact List.mem_flatten.mpr ⟨fv.2, List.mem_map.mpr ⟨fv, hfv, rfl⟩, hs⟩

theorem claim_C10_witness :
    WordData.Safe dogsState ∧
      ∃ c : Nat, dogsState.get_countE ("dogs", "NNS") none = Except.ok c :=
  ⟨by decide, claim_C10.1 dogsState ("dogs", "NNS") none (by decide)⟩

/-- C6: the ranking key (negative total count, lowercased surface form) is
deterministic (a pure function of the key) and orders entries by strictly
descending count with frequency ties broken by the case-folded surface
form; concretely for keys ("cat","NN") count 3, ("bee","NN") count 3 and
("ant","NN") count 5 the ranked order is ant, bee, cat. -/
theorem claim_C6 :
    (∀ (c1 c2 : Nat) (s1 s2 : String),
        keyLt (-(c1 : Int), s1) (-(c2 : Int), s2) = true ↔
          (c2 < c1 ∨ (c1 = c2 ∧ strLt s1 s2 = true))) ∧
    (rankState.get_countD ("ant", "NN") none = 5 ∧
     rankState.get_countD ("bee", "NN") none = 3 ∧
     rankState.get_countD ("cat", "NN") none = 3) ∧
    (rankState.generate_resultsE none (some (count_desc_alphabetical rankState))).map
        (fun l => l.map (fun e => e.1)) =
      Except.ok [("ant", "NN"), ("bee", "NN"), ("cat", "NN")] := by
  refine ⟨?_, ⟨rfl, rfl, rfl⟩, rfl⟩
  intro c1 c2 s1 s2
  simp only [keyLt, Bool.or_eq_true, Bool.and_eq_true, decide_eq_true_iff, beq_iff_eq]
  constructor
  · rintro (h | ⟨h1, h2⟩)
    · left; omega
    · right; exact ⟨by omega, h2⟩
  · rintro (h | ⟨h1, h2⟩)
    · left; omega
    · right; exact ⟨by omega, h2⟩

theorem mapME_ok_length {α β : Type} (g : α → Except Unit β) (l : List α)
    (ys : List β) (h : mapME g l = Except.ok ys) : ys.length = l.length := by
  induction l generalizing ys with
  | nil =>
    rw [mapME] at h
    cases h
    rfl
  | cons x xs ih =>
    rw [mapME] at h
    cases hy : g x with
    | error e => rw [hy] at h; simp at h
    | ok y =>
      rw [hy, bindE_ok] at h
      cases hys : mapME g xs with
      | error e => rw [hys] at h; simp at h
      | ok ys0 =>
        rw [hys, bindE_ok] at h
        cases h
        simp [ih ys0 hys]

theorem length_insertKeyed (x : (Int × String) × WordPos)
    (l : List ((Int × String) × WordPos)) :
    (insertKeyed x l).length = l.length + 1 := by
  induction l with
  | nil => rfl
  | cons y ys ih =>
    rw [insertKeyed]
    by_cases h : keyLt y.1 x.1 <;> simp [h, ih]

theorem length_sortKeyed (l : List ((Int × String) × WordPos)) :
    (sortKeyed l).length = l.length := by
  induction l with
  | nil => rfl
  | cons x xs ih => rw [sortKeyed, length_insertKeyed, ih, List.length_cons]

theorem pyListSort_ok_length (key : WordPos → Except Unit (Int × String))
    (l l' : List WordPos) (h : pyListSort key l = Except.ok l') :
    l'.length = l.length := by
  rw [pyListSort] at h
  cases hd : mapME (fun wp => do
      let k ← key wp
      Except.ok (k, wp)) l with
  | error e => rw [hd] at h; simp at h
  | ok dec =>
    rw [hd, bindE_ok] at h
    cases h
    rw [List.length_map, length_sortKeyed]
    exact mapME_ok_length _ l dec hd

theorem filterME_ok_length_le {α : Type} (p : α → Except Unit Bool) (l l' : List α)
    (h : filterME p l = Except.ok l') : l'.length ≤ l.length := by
  induction l generalizing l' with
  | nil =>
    rw [filterME] at h
    cases h
    simp
  | cons x xs ih =>
    rw [filterME] at h
    cases hb : p x with
    | error e => rw [hb] at h; simp at h
    | ok b =>
      rw [hb, bindE_ok] at h
      cases hr : filterME p xs with
      | error e => rw [hr] at h; simp at h
      | ok rest =>
        rw [hr, bindE_ok] at h
        cases h
        have := ih rest hr
        cases b <;> simp <;> omega

theorem filterME_ok_of_pointwise {α : Type} (p : α → Except Unit Bool) (q : α → Bool)
    (l : List α) (h : ∀ x ∈ l, p x = Except.ok (q x)) :
    filterME p l = Except.ok (l.filter q) := by
  induction l with
  | nil => rfl
  | cons x xs ih =>
    rw [filterME, h x (by simp), bindE_ok,
      ih (fun y hy => h y (by simp [hy])), bindE_ok, List.filter_cons]

theorem generate_resultsE_ok_length_le (d : WordData) (min_count : Option Int)
    (sort_by : Option (WordPos → Except Unit (Int × String)))
    (res : List (WordPos × FileDict))
    (h : d.generate_resultsE min_count sort_by = Except.ok res) :
    res.length ≤ d.data.length := by
  rw [WordData.generate_resultsE] at h
  have hsorted : ∀ sorted : List WordPos,
      sortedKeys d sort_by = Except.ok sorted → sorted.length = d.data.length := by
    intro sorted hs
    cases sort_by with
    | none =>
      rw [sortedKeys] at hs
      cases hs
      simp
    | some key =>
      rw [sortedKeys] at hs
      rw [pyListSort_ok_length key _ sorted hs, List.length_map]
  cases hs : sortedKeys d sort_by with
  | error e => rw [hs] at h; simp at h
  | ok sorted =>
    rw [hs, bindE_ok] at h
    cases hk : filterME (minCountTest d min_count) sorted with
    | error e => rw [hk] at h; simp at h
    | ok kept =>
      rw [hk, bindE_ok] at h
      cases h
      rw [List.length_map]
      exact le_trans (filterME_ok_length_le _ sorted kept hk) (le_of_eq (hsorted sorted hs))

theorem get_countD_eq_of_ok (d : WordData) (k : WordPos) (f : Option String) (c : Nat)
    (h : d.get_countE k f = Except.ok c) : d.get_countD k f = c := by
  rw [WordData.get_countD, h]
  rfl

/-- C7 counterexample: a negative limit does not return all qualifying
entries — `islice` raises ValueError — although an unlimited call on the
same state succeeds, so "non-positive limit returns all entries" is false
at n = -1. -/
theorem claim_C7_counterexample :
    fiveKeyState.get_resultsE (some (-1)) none none = Except.error () ∧
    fiveKeyState.get_resultsE none none none = Except.ok fiveKeyState.data := by
  exact ⟨rfl, rfl⟩

/-- C7 (amended): `get_results(n, min_count, sort_by)` returns the first n
entries, in the chosen order, among the keys whose total count is at least
min_count (all keys when min_count is absent); when n is absent or zero
(Python's falsy test) it returns all such entries, but a negative n raises
ValueError from islice instead of returning them; concretely, limit 2 over
the 5 qualifying ranked keys of fiveKeyState returns exactly the first 2
in ranked order, an unlimited call returns all 5 in the same relative
order, and min_count 3 keeps exactly the keys with counts 5, 4 and 3. -/
theorem claim_C7 :
    (∀ (d : WordData) (mc : Option Int)
        (sb : Option (WordPos → Except Unit (Int × String)))
        (res : List (WordPos × FileDict)),
        d.generate_resultsE mc sb = Except.ok res →
        (d.get_resultsE none mc sb = Except.ok res ∧
         d.get_resultsE (some 0) mc sb = Except.ok res ∧
         (∀ k : Int, 0 < k →
            d.get_resultsE (some k) mc sb = Except.ok (res.take k.toNat)) ∧
         (∀ k : Int, k < 0 → d.get_resultsE (some k) mc sb = Except.error ()))) ∧
    (∀ (d : WordData) (m : Int), d.Safe →
        d.generate_resultsE (some m) none =
          Except.ok (((d.data.map (fun e => e.1)).filter
              (fun wp => decide (m ≤ (d.get_countD wp none : Int)))).map
            (fun wp => (wp, (lookupA d.data wp).getD [])))) ∧
    ((fiveKeyState.get_resultsE (some 2) none
        (some (count_desc_alphabetical fiveKeyState))).map
        (fun l => l.map (fun e => e.1)) =
      Except.ok [("v", "NN"), ("w", "NN")]) ∧
    ((fiveKeyState.get_resultsE none none
        (some (count_desc_alphabetical fiveKeyState))).map
        (fun l => l.map (fun e => e.1)) =
      Except.ok [("v", "NN"), ("w", "NN"), ("x", "NN"), ("y", "NN"), ("z", "NN")]) ∧
    ((fiveKeyState.get_resultsE none (some 3)
        (some (count_desc_alphabetical fiveKeyState))).map
        (fun l => l.map (fun e => e.1)) =
      Except.ok [("v", "NN"), ("w", "NN"), ("x", "NN")]) := by
  refine ⟨?_, ?_, rfl, rfl, rfl⟩
  · intro d mc sb res h
    have hlen := generate_resultsE_ok_length_le d mc sb res h
    refine ⟨?_, ?_, ?_, ?_⟩
    · show (if ((d.data.length : Int)) < 0 then
            (Except.error () : Except Unit (List (WordPos × FileDict)))
          else (d.generate_resultsE mc sb).map
            (fun res => res.take ((d.data.length : Int)).toNat)) = Except.ok res
      rw [if_neg (by omega), h, mapE_ok, Int.toNat_natCast,
        List.take_of_length_le hlen]
    · show (if (if (0 : Int) = 0 then (d.data.length : Int) else 0) < 0 then
            (Except.error () : Except Unit (List (WordPos × FileDict)))
          else (d.generate_resultsE mc sb).map
            (fun res => res.take (if (0 : Int) = 0 then (d.data.length : Int)
              else 0).toNat)) = Except.ok res
      rw [if_pos (show (0 : Int) = 0 from rfl),
        if_neg (show ¬ ((d.data.length : Int)) < 0 by omega), h, mapE_ok,
        Int.toNat_natCast, List.take_of_length_le hlen]
    · intro k hk
      show (if (if k = 0 then (d.data.length : Int) else k) < 0 then
            (Except.error () : Except Unit (List (WordPos × FileDict)))
          else (d.generate_resultsE mc sb).map
            (fun res => res.take (if k = 0 then (d.data.length : Int)
              else k).toNat)) = Except.ok (res.take k.toNat)
      rw [if_neg (show ¬ k = 0 by omega), if_neg (show ¬ k < 0 by omega), h, mapE_ok]
    · intro k hk
      show (if (if k = 0 then (d.data.length : Int) else k) < 0 then
            (Except.error () : Except Unit (List (WordPos × FileDict)))
          else (d.generate_resultsE mc sb).map
            (fun res => res.take (if k = 0 then (d.data.length : Int)
              else k).toNat)) = Except.error ()
      rw [if_neg (show ¬ k = 0 by omega), if_pos (show k < 0 by omega)]
  · intro d m hS
    rw [WordData.generate_resultsE]
    rw [show sortedKeys d none = Except.ok (d.data.map (fun e => e.1)) from rfl]
    rw [bindE_ok]
    rw [filterME_ok_of_pointwise (minCountTest d (some m))
        (fun wp => decide (m ≤ (d.get_countD wp none : Int))) _ ?_]
    · rw [bindE_ok]
    · intro wp _
      show minCountTest d (some m) wp =
        Except.ok (decide (m ≤ (d.get_countD wp none : Int)))
      rw [minCountTest, get_countE_ok_of_safe d hS wp none, bindE_ok]
      rw [get_countD_eq_of_ok d wp none _ (get_countE_ok_of_safe d hS wp none)]

theorem claim_C7_witness :
    fiveKeyState.generate_resultsE none none = Except.ok fiveKeyState.data ∧
      fiveKeyState.get_resultsE none none none = Except.ok fiveKeyState.data :=
  ⟨rfl, (claim_C7.1 fiveKeyState none none fiveKeyState.data rfl).1⟩

theorem setInterestingLoop_ok_iff (ts : List String) : ∀ acc : List String,
    (∃ tags, setInterestingLoop acc ts = Except.ok tags) ↔
      ∀ t ∈ ts, t = "nouns" ∨ t = "verbs" ∨ t = "adjectives" := by
  induction ts with
  | nil =>
    intro acc
    simp [setInterestingLoop]
  | cons t rest ih =>
    intro acc
    by_cases ht : t = "nouns" ∨ t = "verbs" ∨ t = "adjectives"
    · rw [setInterestingLoop, if_pos ht]
      simp only [List.mem_cons]
      constructor
      · intro hex t' ht'
        rcases ht' with rfl | ht'
        · exact ht
        · exact ((ih _).mp hex) t' ht'
      · intro hall
        exact (ih _).mpr (fun t' ht' => hall t' (Or.inr ht'))
    · rw [setInterestingLoop, if_neg ht]
      simp only [List.mem_cons]
      constructor
      · intro hex
        rcases hex with ⟨tags, htags⟩
        simp at htags
      · intro hall
        exact absurd (hall t (Or.inl rfl)) ht

theorem setInterestingLoop_error (ts : List String) : ∀ (acc : List String)
    (msg : String), setInterestingLoop acc ts = Except.error msg →
    ∃ t ∈ ts, ¬(t = "nouns" ∨ t = "verbs" ∨ t = "adjectives") ∧
      msg = invalidTypeMessage t := by
  induction ts with
  | nil =>
    intro acc msg h
    rw [setInterestingLoop] at h
    simp at h
  | cons t rest ih =>
    intro acc msg h
    by_cases ht : t = "nouns" ∨ t = "verbs" ∨ t = "adjectives"
    · rw [setInterestingLoop, if_pos ht] at h
      rcases ih _ msg h with ⟨t', ht'mem, ht'⟩
      exact ⟨t', List.mem_cons_of_mem t ht'mem, ht'⟩
    · rw [setInterestingLoop, if_neg ht] at h
      cases h
      exact ⟨t, List.mem_cons_self t rest, ht, rfl⟩

/-- C9: `set_interesting_types` raises a ValueError iff some supplied
value is not "nouns", "verbs" or "adjectives"; the error message names the
invalid value; and the validation runs before any extraction work, so on
an invalid filter the pipeline yields the configuration error no matter
what the extraction step would have produced (no index state is created
and no file is read). -/
theorem claim_C9 :
    (∀ ts : List String, (∃ tags, set_interesting_typesE ts = Except.ok tags) ↔
        ∀ t ∈ ts, t = "nouns" ∨ t = "verbs" ∨ t = "adjectives") ∧
    (∀ (ts : List String) (msg : String),
        set_interesting_typesE ts = Except.error msg →
        ∃ t ∈ ts, ¬(t = "nouns" ∨ t = "verbs" ∨ t = "adjectives") ∧
          msg = invalidTypeMessage t ∧ ∃ a b : String, msg = a ++ (t ++ b)) ∧
    (∀ (ts : List String) (msg : String) (dflt : List String)
        (extract : List String → WordData),
        set_interesting_typesE ts = Except.error msg →
        extractPipeline (some ts) dflt extract = Except.error msg) := by
  refine ⟨?_, ?_, ?_⟩
  · intro ts
    exact setInterestingLoop_ok_iff ts []
  · intro ts msg h
    rcases setInterestingLoop_error ts [] msg h with ⟨t, htmem, htinv, hmsg⟩
    refine ⟨t, htmem, htinv, hmsg, ?_⟩
    refine ⟨"Valid options are \"nouns\", \"verbs\", or \"adjectives\". Instead got \"",
      "\".", ?_⟩
    rw [hmsg, invalidTypeMessage, String.append_assoc]
  · intro ts msg dflt extract h
    rw [extractPipeline]
    simp only [h, bindE_error]

theorem claim_C9_witness :
    set_interesting_typesE ["verbs", "nonsense"] =
        Except.error (invalidTypeMessage "nonsense") ∧
      extractPipeline (some ["verbs", "nonsense"]) [] (fun _ => WordData.empty) =
        Except.error (invalidTypeMessage "nonsense") :=
  ⟨rfl, claim_C9.2.2 ["verbs", "nonsense"] (invalidTypeMessage "nonsense") []
    (fun _ => WordData.empty) rfl⟩

end Eigen
